import Mathlib

/-!
A shallow embedding of the valuation-and-snapshot engine of `fomo.py`
(repository `kylebradshaw/fomo-investing`), together with theorems about it.

Modelling conventions:
* Python floats are modelled as exact rationals (`ℚ`).
* The external price provider (`fetch_stock_data`, a thin wrapper over
  `yfinance`) is a parameter `fetch : Fetch`.  A provider exception is
  `Except.error ()`; a successful call returns the ordered list of close
  prices (`df['Close']`); the empty list models an empty DataFrame.
* `print` calls, external fetch calls, saves and raised exceptions are
  recorded as an ordered list of `Event`s, so that statements about what
  work is performed (and in which order) can be made.
* The row-level percent change is computed by numpy-backed float division,
  which on a zero denominator yields NaN or ±inf (it does not raise).
  Those non-finite outcomes are modelled as `none : Option ℚ`.
* Dates are the strings the Python code passes around; `datetime.now()`
  is modelled by an explicit `PyDateTime` parameter.
-/

namespace Fomo

/-- Decidable equality of `Except` values, component-wise. -/
instance exceptDecidableEq {ε α : Type} [DecidableEq ε] [DecidableEq α] :
    DecidableEq (Except ε α) := fun x y =>
  match x, y with
  | Except.ok a, Except.ok b =>
    if h : a = b then isTrue (by rw [h])
    else isFalse (fun hc => by cases hc; exact h rfl)
  | Except.ok _, Except.error _ => isFalse (fun hc => by cases hc)
  | Except.error _, Except.ok _ => isFalse (fun hc => by cases hc)
  | Except.error u, Except.error v =>
    if h : u = v then isTrue (by rw [h])
    else isFalse (fun hc => by cases hc; exact h rfl)

/-- A price series: the `Close` column of the DataFrame returned by the
provider, in date order.  `[]` models an empty DataFrame. -/
abbrev PriceSeries := List ℚ

/-- The external provider capability (`fetch_stock_data`): given ticker,
start date and end date it either raises (`Except.error ()`) or returns a
price series. -/
abbrev Fetch := String → String → String → Except Unit PriceSeries

/-- Observable actions of the program: external fetches, printed output,
table/result rendering, appends to the history file, usage errors from
`argparse`, and uncaught exceptions. -/
inductive Event where
  | loadHistory : Event
  | fetch (ticker start_d end_d : String) : Event
  | output (msg : String) : Event
  | printResults : Event
  | printTable : Event
  | save (name spec start_d end_d : String) : Event
  | usageError (msg : String) : Event
  | raiseError (msg : String) : Event
deriving DecidableEq, Repr

/-- One row of the per-holding valuation table built by
`calculate_values` (ticker, shares, start price, end price, start value,
end value, percent change, value change, in the order the Python code
appends them).  `percent_change = none` models the NaN/±inf produced by
the unguarded float division when the start value is zero. -/
structure Row where
  ticker : String
  shares : ℚ
  start_price : ℚ
  end_price : ℚ
  start_value : ℚ
  end_value : ℚ
  percent_change : Option ℚ
  value_change : ℚ
deriving DecidableEq, Repr

/-- The five components returned by `calculate_values`. -/
structure CalcResult where
  data : List Row
  total_start_value : ℚ
  total_end_value : ℚ
  overall_percent_change : ℚ
  total_value_change : ℚ
deriving DecidableEq, Repr

/-- Diagnostic printed when a symbol has no data (fomo.py line 50). -/
def noDataMsg (ticker start_d end_d : String) : String :=
  s!"No data for {ticker} between {start_d} and {end_d}. Skipping."

/-- Diagnostic printed when the total start value is zero (line 76). -/
def zeroStartMsg : String :=
  "Total start value is zero, cannot calculate overall percent change."

/-- The loop body of `calculate_values` for one holding with a non-empty
price series (lines 53-73): first close is the start price, last close is
the end price.  The division on line 58 is unguarded; a zero start value
yields NaN/±inf, modelled as `none`. -/
def mkRow (ticker : String) (shares : ℚ) (prices : PriceSeries) : Row :=
  let start_price := prices.headD 0
  let end_price := prices.getLastD 0
  let start_value := start_price * shares
  let end_value := end_price * shares
  let value_change := end_value - start_value
  let percent_change :=
    if start_value = 0 then none else some (value_change / start_value * 100)
  ⟨ticker, shares, start_price, end_price, start_value, end_value,
    percent_change, value_change⟩

/-- The `for ticker, shares in portfolio` loop of `calculate_values`
(lines 46-73), returning the accumulated rows and the three running
totals, plus the events (fetch calls and diagnostics) it performs.  A
provider exception propagates and aborts the loop (there is no
try/except around `fetch_stock_data`). -/
def calcRows (fetch : Fetch) (start_date end_date : String) :
    List (String × ℚ) → Except Unit (List Row × ℚ × ℚ × ℚ) × List Event
  | [] => (Except.ok ([], 0, 0, 0), [])
  | (t, sh) :: rest =>
    match fetch t start_date end_date with
    | Except.error _ => (Except.error (), [Event.fetch t start_date end_date])
    | Except.ok prices =>
      if prices = [] then
        match calcRows fetch start_date end_date rest with
        | (r, evs) =>
          (r, Event.fetch t start_date end_date ::
              Event.output (noDataMsg t start_date end_date) :: evs)
      else
        let row := mkRow t sh prices
        match calcRows fetch start_date end_date rest with
        | (Except.error u, evs) =>
          (Except.error u, Event.fetch t start_date end_date :: evs)
        | (Except.ok (rows, tsv, tev, tvc), evs) =>
          (Except.ok (row :: rows, row.start_value + tsv,
              row.end_value + tev, row.value_change + tvc),
            Event.fetch t start_date end_date :: evs)

/-- `calculate_values(portfolio, start_date, end_date)` (lines 40-81):
runs the per-holding loop, then computes the overall percent change with
the zero-guard of lines 75-79 (the only zero-guard in the function). -/
def calculate_values (fetch : Fetch) (portfolio : List (String × ℚ))
    (start_date end_date : String) : Except Unit CalcResult × List Event :=
  match calcRows fetch start_date end_date portfolio with
  | (Except.error u, evs) => (Except.error u, evs)
  | (Except.ok (rows, tsv, tev, tvc), evs) =>
    if tsv = 0 then
      (Except.ok ⟨rows, tsv, tev, 0, tvc⟩, evs ++ [Event.output zeroStartMsg])
    else
      (Except.ok ⟨rows, tsv, tev, tvc / tsv * 100, tvc⟩, evs)

/-! ## Portfolio Parser (`parse_portfolio`, lines 35-38)

`re.findall(r"([A-Za-z]+)\(([\d\.]+)\)", s)` is modelled by a
maximal-munch scanner: both character classes of the pattern are
followed by a literal character outside the class, so the greedy
quantifiers never backtrack, and `findall` advances one character after
every failed anchor.  `\d` is modelled as the ASCII digits (the inputs
of interest are ASCII).  The `float(shares)` conversion on line 38 can
raise `ValueError` (e.g. on `"."` or `"1.2.3"`), which propagates. -/

/-- One anchored attempt of the pattern `([A-Za-z]+)\(([\d\.]+)\)` at
the head of `cs`: maximal run of letters, literal `(`, maximal non-empty
run of digits/dots, literal `)`.  Returns the two capture groups and the
remaining characters. -/
def tryMatch (cs : List Char) : Option (String × String × List Char) :=
  match cs.span (fun c => c.isAlpha) with
  | (letters, rest1) =>
    if letters = [] then none
    else
      match rest1 with
      | '(' :: rest2 =>
        match rest2.span (fun c => c.isDigit || c == '.') with
        | (digits, rest3) =>
          if digits = [] then none
          else
            match rest3 with
            | ')' :: rest4 => some (String.mk letters, String.mk digits, rest4)
            | _ => none
      | _ => none

/-- `re.findall` over the text: try an anchored match at every position,
left to right; after a match continue right after it, otherwise advance
one character.  The fuel argument (initially the length of the text,
which strictly bounds the number of steps) makes the recursion
structural. -/
def scanAux : ℕ → List Char → List (String × String)
  | 0, _ => []
  | _, [] => []
  | fuel + 1, c :: rest =>
    match tryMatch (c :: rest) with
    | some (t, d, rem) => (t, d) :: scanAux fuel rem
    | none => scanAux fuel rest

/-- All matches of `([A-Za-z]+)\(([\d\.]+)\)` in the text, in
first-occurrence order, as (ticker, share-string) capture pairs. -/
def scanMatches (cs : List Char) : List (String × String) :=
  scanAux cs.length cs

/-- Numeric value of a digit string (most significant first). -/
def digitsToNat (ds : List Char) : ℕ :=
  ds.foldl (fun a c => 10 * a + (c.toNat - 48)) 0

/-- Python `float(s)` as used on line 38, where `s` is a capture of
`[\d\.]+`: it succeeds iff the string is non-empty, consists of digits
and dots, has at most one dot and at least one digit; otherwise it
raises `ValueError`.  The value is exact (`ℚ` instead of IEEE). -/
def pyFloat (s : String) : Except Unit ℚ :=
  let cs := s.toList
  if cs ≠ [] ∧ cs.all (fun c => c.isDigit || c == '.') = true ∧
      cs.count '.' ≤ 1 ∧ cs.any (fun c => c.isDigit) = true then
    let intPart := cs.takeWhile (fun c => c != '.')
    let fracPart := (cs.dropWhile (fun c => c != '.')).drop 1
    Except.ok ((digitsToNat intPart : ℚ) +
      (digitsToNat fracPart : ℚ) / (10 : ℚ) ^ fracPart.length)
  else
    Except.error ()

/-- The list comprehension `[(ticker, float(shares)) for ticker, shares
in matches]`: built left to right, a raising `float` aborts it. -/
def convertMatches : List (String × String) → Except Unit (List (String × ℚ))
  | [] => Except.ok []
  | p :: rest =>
    match pyFloat p.2 with
    | Except.error u => Except.error u
    | Except.ok q =>
      match convertMatches rest with
      | Except.error u => Except.error u
      | Except.ok l => Except.ok ((p.1, q) :: l)

/-- `parse_portfolio(portfolio_str)` (lines 35-38): the regex matches in
first-occurrence order, each share string converted by `float`; a
failing conversion raises out of the list comprehension. -/
def parse_portfolio (portfolio_str : String) : Except Unit (List (String × ℚ)) :=
  convertMatches (scanMatches portfolio_str.toList)

/-! ## Dates (`get_previous_market_close`, lines 130-135) -/

/-- The fields of `datetime.now()` that the program consults (`strftime
'%Y-%m-%d'` drops the sub-day fields other than the hour test). -/
structure PyDateTime where
  year : ℕ
  month : ℕ
  day : ℕ
  hour : ℕ
deriving DecidableEq, Repr

/-- Two-digit zero-padded decimal rendering (`%m`, `%d`). -/
def pad2 (n : ℕ) : String :=
  if n < 10 then "0" ++ toString n else toString n

/-- Four-digit zero-padded decimal rendering (`%Y`). -/
def pad4 (n : ℕ) : String :=
  if n < 10 then "000" ++ toString n
  else if n < 100 then "00" ++ toString n
  else if n < 1000 then "0" ++ toString n
  else toString n

/-- Gregorian leap-year rule, as `datetime` implements it. -/
def isLeapYear (y : ℕ) : Bool :=
  (y % 4 == 0 && y % 100 != 0) || y % 400 == 0

/-- Length of a month in the proleptic Gregorian calendar. -/
def daysInMonth (y m : ℕ) : ℕ :=
  if m = 2 then (if isLeapYear y then 29 else 28)
  else if m = 4 ∨ m = 6 ∨ m = 9 ∨ m = 11 then 30
  else 31

/-- `now - timedelta(days=1)` on the date components. -/
def prevDay (y m d : ℕ) : ℕ × ℕ × ℕ :=
  if 1 < d then (y, m, d - 1)
  else if 1 < m then (y, m - 1, daysInMonth y (m - 1))
  else (y - 1, 12, 31)

/-- `get_previous_market_close()` (lines 130-135): before 16:00 local
time step back one day, then render the date as `%Y-%m-%d` (pinning the
time to 16:00 does not affect the rendered date). -/
def get_previous_market_close (now : PyDateTime) : String :=
  match (if now.hour < 16 then prevDay now.year now.month now.day
         else (now.year, now.month, now.day)) with
  | (y, m, d) => pad4 y ++ "-" ++ pad2 m ++ "-" ++ pad2 d

/-! ## Snapshot store and comparison engine (lines 137-177)

`load_history` reads the whole CSV; its contents are passed in as
`List Entry` and the read itself is recorded as `Event.loadHistory`. -/

/-- One row of `portfolio_history.csv`, as unpacked by
`name, portfolio_str, start_date, end_date = entry`. -/
structure Entry where
  name : String
  portfolio_str : String
  start_date : String
  end_date : String
deriving DecidableEq, Repr

/-- One row of the comparison table built by `compare_portfolios`
(lines 163-171). -/
structure CompareRow where
  name : String
  start_date : String
  end_date : String
  total_start_value : ℚ
  total_end_value : ℚ
  overall_percent_change : ℚ
  total_value_change : ℚ
deriving DecidableEq, Repr

/-- Diagnostic printed when a compared name has no history (line 156). -/
def noHistoryMsg (n : String) : String :=
  s!"No history found for portfolio \x27{n}\x27. Skipping."

/-- Diagnostic printed for more than five compare names (line 192). -/
def compareLimitMsg : String :=
  "You can compare up to 5 portfolios at a time."

/-- Message of the `ValueError` raised on line 210. -/
def saveNameMsg : String :=
  "Name is required when saving a portfolio."

/-- The `for entry in matching_entries` loop of `compare_portfolios`
(lines 159-171): one comparison row per matching entry, valued over the
entry's own stored date range (the `end_date` is passed through exactly
as stored).  A `parse_portfolio` or fetch exception propagates. -/
def compareEntriesLoop (fetch : Fetch) :
    List Entry → Except Unit (List CompareRow) × List Event
  | [] => (Except.ok [], [])
  | en :: rest =>
    match parse_portfolio en.portfolio_str with
    | Except.error u => (Except.error u, [])
    | Except.ok pf =>
      match calculate_values fetch pf en.start_date en.end_date with
      | (Except.error u, evs) => (Except.error u, evs)
      | (Except.ok res, evs) =>
        match compareEntriesLoop fetch rest with
        | (Except.error u, evs2) => (Except.error u, evs ++ evs2)
        | (Except.ok rows, evs2) =>
          (Except.ok (⟨en.name, en.start_date, en.end_date,
              res.total_start_value, res.total_end_value,
              res.overall_percent_change, res.total_value_change⟩ :: rows),
            evs ++ evs2)

/-- The `for portfolio_name in portfolios` loop of `compare_portfolios`
(lines 153-171): a name with no matching entries is diagnosed and
skipped (the loop continues), a name with matching entries contributes
one row per matching entry. -/
def comparePortfoliosLoop (fetch : Fetch) (history : List Entry) :
    List String → Except Unit (List CompareRow) × List Event
  | [] => (Except.ok [], [])
  | n :: rest =>
    if history.filter (fun en => en.name == n) = [] then
      match comparePortfoliosLoop fetch history rest with
      | (r, evs) => (r, Event.output (noHistoryMsg n) :: evs)
    else
      match compareEntriesLoop fetch (history.filter (fun en => en.name == n)) with
      | (Except.error u, evs1) => (Except.error u, evs1)
      | (Except.ok rows1, evs1) =>
        match comparePortfoliosLoop fetch history rest with
        | (Except.error u, evs2) => (Except.error u, evs1 ++ evs2)
        | (Except.ok rows2, evs2) => (Except.ok (rows1 ++ rows2), evs1 ++ evs2)

/-- `compare_portfolios(portfolios)` (lines 149-177): load the history,
run the per-name loop, and (when no exception escaped) print whatever
table was accumulated. -/
def compare_portfolios (fetch : Fetch) (history : List Entry)
    (portfolios : List String) : Except Unit (List CompareRow) × List Event :=
  match comparePortfoliosLoop fetch history portfolios with
  | (Except.error u, evs) => (Except.error u, Event.loadHistory :: evs)
  | (Except.ok rows, evs) =>
    (Except.ok rows, Event.loadHistory :: (evs ++ [Event.printTable]))

/-! ## The command surface (`parse_args` and `main`, lines 13-28 and
179-211) -/

/-- The argparse namespace: `None` defaults become `none`, the
`store_true` flags become `Bool`. -/
structure Args where
  name : Option String
  portfolio : Option String
  frm : Option String
  /-- the argparse dest is `to`, a reserved word here -/
  to_date : Option String
  aggregate : Bool
  compare : Option String
  save : Bool
deriving DecidableEq, Repr

/-- Python truthiness of an optional string flag (`not args.compare`
is true both for `None` and for the empty string). -/
def pyTruthy : Option String → Bool
  | none => false
  | some s => !(s == "")

/-- Python `s.replace(a, b)` for single characters, as used to turn
`YYYY.MM.DD` into `YYYY-MM-DD` (lines 196-200). -/
def pyReplaceChar (s : String) (a b : Char) : String :=
  String.mk (s.toList.map (fun c => if c = a then b else c))

/-- Python `s.split(sep)` for a single-character separator, as used on
`args.compare` (line 190): always returns at least one piece, keeps
empty pieces. -/
def pySplitChar (sep : Char) : List Char → List (List Char)
  | [] => [[]]
  | c :: rest =>
    match pySplitChar sep rest with
    | r =>
      if c = sep then [] :: r
      else (c :: r.headD []) :: r.tail

/-- `String` version of `pySplitChar`. -/
def pySplit (s : String) (sep : Char) : List String :=
  (pySplitChar sep s.toList).map (fun l => String.mk l)

/-- The `if args.aggregate` branch of `main` (lines 182-188): for every
stored entry, parse it and value it with `end_date or
get_previous_market_close()` — the empty-sentinel end date is resolved
at the time of use.  An exception from parsing or fetching propagates
(uncaught, so the process dies). -/
def aggregateRun (fetch : Fetch) (now : PyDateTime) : List Entry → List Event
  | [] => []
  | en :: rest =>
    match parse_portfolio en.portfolio_str with
    | Except.error _ => [Event.raiseError "unhandled exception"]
    | Except.ok pf =>
      match calculate_values fetch pf en.start_date
          (if en.end_date = "" then get_previous_market_close now
           else en.end_date) with
      | (Except.error _, evs) => evs ++ [Event.raiseError "unhandled exception"]
      | (Except.ok _, evs) =>
        evs ++ Event.printResults :: aggregateRun fetch now rest

/-- The `elif args.compare` branch of `main` (lines 189-194): split the
names on commas; more than five names prints the limit diagnostic and
returns before `compare_portfolios` (and hence before any history load
or fetch). -/
def mainCompare (fetch : Fetch) (history : List Entry) (c : String) :
    List Event :=
  if (pySplit c ',').length > 5 then [Event.output compareLimitMsg]
  else
    match compare_portfolios fetch history (pySplit c ',') with
    | (Except.error _, evs) => evs ++ [Event.raiseError "unhandled exception"]
    | (Except.ok _, evs) => evs

/-- The final `else` branch of `main` (lines 195-211): normalize the
dates, value the portfolio, print the results, and only then — if
`--save` was given — check that a name was supplied, raising
`ValueError` when it was not.  The fall-through case is unreachable:
`parse_args` has already required `--portfolio` and `--from`. -/
def mainElse (fetch : Fetch) (now : PyDateTime) (args : Args) : List Event :=
  match args.portfolio, args.frm with
  | some pstr, some frm =>
    match parse_portfolio pstr with
    | Except.error _ => [Event.raiseError "unhandled exception"]
    | Except.ok pf =>
      match calculate_values fetch pf (pyReplaceChar frm '.' '-')
          (match args.to_date with
           | some t => pyReplaceChar t '.' '-'
           | none => get_previous_market_close now) with
      | (Except.error _, evs) => evs ++ [Event.raiseError "unhandled exception"]
      | (Except.ok _, evs) =>
        evs ++ [Event.printResults] ++
        (if args.save then
          match args.name with
          | none => [Event.raiseError saveNameMsg]
          | some nm =>
            [Event.save nm pstr (pyReplaceChar frm '.' '-')
              (match args.to_date with
               | some t => pyReplaceChar t '.' '-'
               | none => get_previous_market_close now)]
         else [])
  | _, _ => []

/-- `main()` (lines 179-211) after `parse_args`: the validation of
lines 24-26 (usage error unless aggregate or compare is requested or
both portfolio and from are supplied, with Python truthiness), then the
three-way dispatch `if args.aggregate / elif args.compare / else`. -/
def main (fetch : Fetch) (now : PyDateTime) (history : List Entry)
    (args : Args) : List Event :=
  if !args.aggregate && !(pyTruthy args.compare) &&
      (!(pyTruthy args.portfolio) || !(pyTruthy args.frm)) then
    [Event.usageError
      "--portfolio and --from are required unless --aggregate or --compare is specified."]
  else if args.aggregate then
    Event.loadHistory :: aggregateRun fetch now history
  else if pyTruthy args.compare then
    mainCompare fetch history (args.compare.getD "")
  else
    mainElse fetch now args

/-! ## Statement helpers

Definitions used only to phrase theorems about the embedding. -/

/-- The row `calculate_values` produces for one holding, when it
produces one: `none` when the provider raises or returns no data. -/
def rowFor (fetch : Fetch) (start_date end_date : String)
    (p : String × ℚ) : Option Row :=
  match fetch p.1 start_date end_date with
  | Except.error _ => none
  | Except.ok prices =>
    if prices = [] then none else some (mkRow p.1 p.2 prices)

/-- The comparison row `compare_portfolios` produces for one stored
entry, when it produces one: `none` when parsing or valuation raises. -/
def entryRowOpt (fetch : Fetch) (en : Entry) : Option CompareRow :=
  match parse_portfolio en.portfolio_str with
  | Except.error _ => none
  | Except.ok pf =>
    match calculate_values fetch pf en.start_date en.end_date with
    | (Except.error _, _) => none
    | (Except.ok res, _) =>
      some ⟨en.name, en.start_date, en.end_date, res.total_start_value,
        res.total_end_value, res.overall_percent_change,
        res.total_value_change⟩

/-- Whether an `Except` carries a value (no exception was raised). -/
def exOk {α : Type} : Except Unit α → Bool
  | Except.ok _ => true
  | Except.error _ => false

/-- The value of a successful `pyFloat`, defaulting to `0`. -/
def pyFloatVal (s : String) : ℚ :=
  match pyFloat s with
  | Except.ok q => q
  | Except.error _ => 0

/-! ## Lemmas about the valuation loop -/

/-- When the per-holding loop completes without an exception, the rows
are exactly the holdings with a non-empty series and the three running
totals are the sums of the corresponding row fields. -/
theorem calcRows_ok (fetch : Fetch) (s e : String)
    (pf : List (String × ℚ)) (rows : List Row) (tsv tev tvc : ℚ)
    (evs : List Event)
    (h : calcRows fetch s e pf = (Except.ok (rows, tsv, tev, tvc), evs)) :
    rows = pf.filterMap (rowFor fetch s e) ∧
    tsv = (rows.map Row.start_value).sum ∧
    tev = (rows.map Row.end_value).sum ∧
    tvc = (rows.map Row.value_change).sum := by
  induction pf generalizing rows tsv tev tvc evs with
  | nil =>
    simp only [calcRows, Prod.mk.injEq, Except.ok.injEq] at h
    obtain ⟨⟨h1, h2, h3, h4⟩, -⟩ := h
    subst h1; subst h2; subst h3; subst h4
    simp
  | cons p rest ih =>
    obtain ⟨t, sh⟩ := p
    rcases hf : fetch t s e with u | prices
    · simp only [calcRows, hf] at h
      simp at h
    · by_cases hp : prices = []
      · rcases hrec : calcRows fetch s e rest with ⟨r, evs2⟩
        simp only [calcRows, hf, hp, if_true, hrec] at h
        obtain ⟨h1, -⟩ := Prod.mk.injEq .. ▸ h
        obtain ⟨hr, he⟩ := ih rows tsv tev tvc evs2 (by rw [hrec, h1])
        refine ⟨?_, he⟩
        simp [List.filterMap_cons, rowFor, hf, hp, hr]
      · rcases hrec : calcRows fetch s e rest with ⟨r, evs2⟩
        rcases r with u | ⟨rows0, tsv0, tev0, tvc0⟩
        · simp only [calcRows, hf, hp, if_false, hrec] at h
          simp at h
        · simp only [calcRows, hf, hp, if_false, hrec, Prod.mk.injEq,
            Except.ok.injEq] at h
          obtain ⟨⟨h1, h2, h3, h4⟩, -⟩ := h
          obtain ⟨hr, hsv, hev, hvc⟩ :=
            ih rows0 tsv0 tev0 tvc0 evs2 (by rw [hrec])
          subst h1; subst h2; subst h3; subst h4
          refine ⟨?_, ?_, ?_, ?_⟩
          · simp [List.filterMap_cons, rowFor, hf, hp, hr]
          · simp [hsv]
          · simp [hev]
          · simp [hvc]

/-- When `calculate_values` completes without an exception, its rows are
the holdings with data, its totals are the row sums, and its overall
percent change is zero-guarded. -/
theorem calculate_values_ok (fetch : Fetch) (pf : List (String × ℚ))
    (s e : String) (res : CalcResult) (evs : List Event)
    (h : calculate_values fetch pf s e = (Except.ok res, evs)) :
    res.data = pf.filterMap (rowFor fetch s e) ∧
    res.total_start_value = (res.data.map Row.start_value).sum ∧
    res.total_end_value = (res.data.map Row.end_value).sum ∧
    res.total_value_change = (res.data.map Row.value_change).sum ∧
    res.overall_percent_change =
      (if res.total_start_value = 0 then 0
       else res.total_value_change / res.total_start_value * 100) := by
  rcases hrec : calcRows fetch s e pf with ⟨r, evs2⟩
  rcases r with u | ⟨rows, tsv, tev, tvc⟩
  · simp only [calculate_values, hrec] at h
    simp at h
  · obtain ⟨hr, hsv, hev, hvc⟩ := calcRows_ok fetch s e pf rows tsv tev tvc
      evs2 (by rw [hrec])
    by_cases hz : tsv = 0
    · simp only [calculate_values, hrec, hz, if_true, Prod.mk.injEq,
        Except.ok.injEq] at h
      obtain ⟨h1, -⟩ := h
      subst h1
      simp_all
    · simp only [calculate_values, hrec, hz, if_false, Prod.mk.injEq,
        Except.ok.injEq] at h
      obtain ⟨h1, -⟩ := h
      subst h1
      simp_all

/-- The per-holding loop raises iff the provider raises on some holding
of the portfolio: nothing in `calculate_values` catches a provider
exception. -/
theorem calcRows_error_iff (fetch : Fetch) (s e : String)
    (pf : List (String × ℚ)) :
    (calcRows fetch s e pf).1 = Except.error () ↔
      ∃ p ∈ pf, fetch p.1 s e = Except.error () := by
  induction pf with
  | nil => simp [calcRows]
  | cons p rest ih =>
    obtain ⟨t, sh⟩ := p
    rcases hf : fetch t s e with u | prices
    · obtain rfl : u = () := rfl
      simp [calcRows, hf]
    · by_cases hp : prices = []
      · rcases hrec : calcRows fetch s e rest with ⟨r, evs2⟩
        simp only [calcRows, hf, hp, if_true, hrec]
        rw [hrec] at ih
        simpa [hf] using ih
      · rcases hrec : calcRows fetch s e rest with ⟨r, evs2⟩
        rw [hrec] at ih
        rcases r with u | ⟨rows0, tsv0, tev0, tvc0⟩
        · obtain rfl : u = () := rfl
          simp only [calcRows, hf, hp, if_false, hrec]
          simpa [hf] using ih
        · have h1 : ¬ ∃ p ∈ rest, fetch p.1 s e = Except.error () := by
            intro hex
            have := ih.mpr hex
            simp at this
          simp only [calcRows, hf, hp, if_false, hrec]
          simp [hf]
          intro x q hmem hc
          exact h1 ⟨(x, q), hmem, hc⟩

/-- Every fetch event emitted by the valuation loop carries exactly the
start and end dates the loop was called with. -/
theorem calcRows_fetch_events (fetch : Fetch) (s e : String)
    (pf : List (String × ℚ)) (t s2 e2 : String)
    (h : Event.fetch t s2 e2 ∈ (calcRows fetch s e pf).2) :
    s2 = s ∧ e2 = e := by
  induction pf with
  | nil => simp [calcRows] at h
  | cons p rest ih =>
    obtain ⟨tk, sh⟩ := p
    rcases hf : fetch tk s e with u | prices
    · simp only [calcRows, hf, List.mem_singleton] at h
      cases h
      exact ⟨rfl, rfl⟩
    · by_cases hp : prices = []
      · rcases hrec : calcRows fetch s e rest with ⟨r, evs2⟩
        simp only [calcRows, hf, hp, if_true, hrec, List.mem_cons] at h
        rcases h with h | h | h
        · cases h; exact ⟨rfl, rfl⟩
        · cases h
        · exact ih (by rw [hrec]; exact h)
      · rcases hrec : calcRows fetch s e rest with ⟨r, evs2⟩
        rcases r with u | ⟨rows0, tsv0, tev0, tvc0⟩
        · simp only [calcRows, hf, hp, if_false, hrec, List.mem_cons] at h
          rcases h with h | h
          · cases h; exact ⟨rfl, rfl⟩
          · exact ih (by rw [hrec]; exact h)
        · simp only [calcRows, hf, hp, if_false, hrec, List.mem_cons] at h
          rcases h with h | h
          · cases h; exact ⟨rfl, rfl⟩
          · exact ih (by rw [hrec]; exact h)

/-- Lift of `calcRows_fetch_events` to `calculate_values`. -/
theorem calculate_values_fetch_events (fetch : Fetch)
    (pf : List (String × ℚ)) (s e : String) (t s2 e2 : String)
    (h : Event.fetch t s2 e2 ∈ (calculate_values fetch pf s e).2) :
    s2 = s ∧ e2 = e := by
  rcases hrec : calcRows fetch s e pf with ⟨r, evs2⟩
  rcases r with u | ⟨rows, tsv, tev, tvc⟩
  · simp only [calculate_values, hrec] at h
    exact calcRows_fetch_events fetch s e pf t s2 e2 (by rw [hrec]; exact h)
  · by_cases hz : tsv = 0
    · simp only [calculate_values, hrec, hz, if_true, List.mem_append,
        List.mem_singleton] at h
      rcases h with h | h
      · exact calcRows_fetch_events fetch s e pf t s2 e2 (by rw [hrec]; exact h)
      · cases h
    · simp only [calculate_values, hrec, hz, if_false] at h
      exact calcRows_fetch_events fetch s e pf t s2 e2 (by rw [hrec]; exact h)

/-- `calculate_values` raises iff the provider raises on some holding. -/
theorem calculate_values_error_iff (fetch : Fetch)
    (pf : List (String × ℚ)) (s e : String) :
    (calculate_values fetch pf s e).1 = Except.error () ↔
      ∃ p ∈ pf, fetch p.1 s e = Except.error () := by
  rw [← calcRows_error_iff fetch s e pf]
  rcases hrec : calcRows fetch s e pf with ⟨r, evs2⟩
  rcases r with u | ⟨rows, tsv, tev, tvc⟩
  · obtain rfl : u = () := rfl
    simp [calculate_values, hrec]
  · by_cases hz : tsv = 0 <;> simp [calculate_values, hrec, hz]

/-! ## Lemmas about the comparison engine -/

/-- When the per-entry loop completes without an exception, it yields
exactly one row per entry, in order. -/
theorem compareEntriesLoop_ok (fetch : Fetch) (entries : List Entry)
    (rows : List CompareRow) (evs : List Event)
    (h : compareEntriesLoop fetch entries = (Except.ok rows, evs)) :
    rows = entries.filterMap (entryRowOpt fetch) ∧
    ∀ en ∈ entries, (entryRowOpt fetch en).isSome = true := by
  induction entries generalizing rows evs with
  | nil =>
    simp only [compareEntriesLoop, Prod.mk.injEq, Except.ok.injEq] at h
    obtain ⟨h1, -⟩ := h
    subst h1
    simp
  | cons en rest ih =>
    rcases hpar : parse_portfolio en.portfolio_str with u | pf
    · simp only [compareEntriesLoop, hpar] at h
      simp at h
    · rcases hcv : calculate_values fetch pf en.start_date en.end_date
        with ⟨cr, evs1⟩
      rcases cr with u | res
      · simp only [compareEntriesLoop, hpar, hcv] at h
        simp at h
      · rcases hrec : compareEntriesLoop fetch rest with ⟨r2, evs2⟩
        rcases r2 with u | rows2
        · simp only [compareEntriesLoop, hpar, hcv, hrec] at h
          simp at h
        · simp only [compareEntriesLoop, hpar, hcv, hrec, Prod.mk.injEq,
            Except.ok.injEq] at h
          obtain ⟨h1, -⟩ := h
          subst h1
          obtain ⟨hr, hall⟩ := ih rows2 evs2 (by rw [hrec])
          have hopt : entryRowOpt fetch en =
              some ⟨en.name, en.start_date, en.end_date,
                res.total_start_value, res.total_end_value,
                res.overall_percent_change, res.total_value_change⟩ := by
            simp [entryRowOpt, hpar, hcv]
          refine ⟨?_, ?_⟩
          · simp [List.filterMap_cons, hopt, hr]
          · intro en2 hen2
            rcases List.mem_cons.mp hen2 with rfl | hen2
            · simp [hopt]
            · exact hall en2 hen2

/-- Every fetch event of the per-entry loop is dated by one of the
entries: the stored `start_date` and the stored `end_date`, exactly as
stored. -/
theorem compareEntriesLoop_fetch_events (fetch : Fetch)
    (entries : List Entry) (t s2 e2 : String)
    (h : Event.fetch t s2 e2 ∈ (compareEntriesLoop fetch entries).2) :
    ∃ en ∈ entries, s2 = en.start_date ∧ e2 = en.end_date := by
  induction entries with
  | nil => simp [compareEntriesLoop] at h
  | cons en rest ih =>
    rcases hpar : parse_portfolio en.portfolio_str with u | pf
    · simp only [compareEntriesLoop, hpar] at h
      simp at h
    · rcases hcv : calculate_values fetch pf en.start_date en.end_date
        with ⟨cr, evs1⟩
      rcases cr with u | res
      · simp only [compareEntriesLoop, hpar, hcv] at h
        obtain ⟨hs, he⟩ := calculate_values_fetch_events fetch pf
          en.start_date en.end_date t s2 e2 (by rw [hcv]; exact h)
        exact ⟨en, List.mem_cons_self .., hs, he⟩
      · rcases hrec : compareEntriesLoop fetch rest with ⟨r2, evs2⟩
        have hmem : Event.fetch t s2 e2 ∈ evs1 ++ evs2 := by
          rcases r2 with u | rows2 <;>
            simpa only [compareEntriesLoop, hpar, hcv, hrec] using h
        rcases List.mem_append.mp hmem with hm | hm
        · obtain ⟨hs, he⟩ := calculate_values_fetch_events fetch pf
            en.start_date en.end_date t s2 e2 (by rw [hcv]; exact hm)
          exact ⟨en, List.mem_cons_self .., hs, he⟩
        · obtain ⟨en2, hen2, hs, he⟩ := ih (by rw [hrec]; exact hm)
          exact ⟨en2, List.mem_cons_of_mem _ hen2, hs, he⟩

/-- When the per-name loop completes without an exception: its rows are,
name by name in request order, one row per matching history entry; every
matching entry of every requested name produced a row; and every
requested name with no matching entry got its diagnostic printed. -/
theorem comparePortfoliosLoop_ok (fetch : Fetch) (history : List Entry)
    (names : List String) (rows : List CompareRow) (evs : List Event)
    (h : comparePortfoliosLoop fetch history names = (Except.ok rows, evs)) :
    rows = names.flatMap (fun n =>
      (history.filter (fun en => en.name == n)).filterMap
        (entryRowOpt fetch)) ∧
    (∀ n ∈ names, ∀ en ∈ history.filter (fun en2 => en2.name == n),
      (entryRowOpt fetch en).isSome = true) ∧
    (∀ n ∈ names, history.filter (fun en => en.name == n) = [] →
      Event.output (noHistoryMsg n) ∈ evs) := by
  induction names generalizing rows evs with
  | nil =>
    simp only [comparePortfoliosLoop, Prod.mk.injEq, Except.ok.injEq] at h
    obtain ⟨h1, -⟩ := h
    subst h1
    simp
  | cons n rest ih =>
    by_cases hm : history.filter (fun en => en.name == n) = []
    · rcases hrec : comparePortfoliosLoop fetch history rest with ⟨r2, evs2⟩
      simp only [comparePortfoliosLoop, hm, if_true, hrec] at h
      rcases r2 with u | rows2
      · simp at h
      · simp only [Prod.mk.injEq, Except.ok.injEq] at h
        obtain ⟨h1, h2⟩ := h
        subst h1
        obtain ⟨hr, hall, hmiss⟩ := ih rows2 evs2 (by rw [hrec])
        refine ⟨?_, ?_, ?_⟩
        · simp [List.flatMap_cons, hm, hr]
        · intro n2 hn2 en hen
          rcases List.mem_cons.mp hn2 with rfl | hn2
          · rw [hm] at hen; cases hen
          · exact hall n2 hn2 en hen
        · intro n2 hn2 hemp
          rcases List.mem_cons.mp hn2 with rfl | hn2
          · rw [← h2]
            exact List.mem_cons_self ..
          · rw [← h2]
            exact List.mem_cons_of_mem _ (hmiss n2 hn2 hemp)
    · rcases hent : compareEntriesLoop fetch
        (history.filter (fun en => en.name == n)) with ⟨r1, evs1⟩
      rcases r1 with u | rows1
      · simp only [comparePortfoliosLoop, hm, if_false, hent] at h
        simp at h
      · rcases hrec : comparePortfoliosLoop fetch history rest with ⟨r2, evs2⟩
        rcases r2 with u | rows2
        · simp only [comparePortfoliosLoop, hm, if_false, hent, hrec] at h
          simp at h
        · simp only [comparePortfoliosLoop, hm, if_false, hent, hrec,
            Prod.mk.injEq, Except.ok.injEq] at h
          obtain ⟨h1, h2⟩ := h
          subst h1
          obtain ⟨hr1, hall1⟩ := compareEntriesLoop_ok fetch _ rows1 evs1
            (by rw [hent])
          obtain ⟨hr, hall, hmiss⟩ := ih rows2 evs2 (by rw [hrec])
          refine ⟨?_, ?_, ?_⟩
          · simp [List.flatMap_cons, ← hr1, hr]
          · intro n2 hn2 en hen
            rcases List.mem_cons.mp hn2 with rfl | hn2
            · exact hall1 en hen
            · exact hall n2 hn2 en hen
          · intro n2 hn2 hemp
            rcases List.mem_cons.mp hn2 with rfl | hn2
            · exact absurd hemp hm
            · rw [← h2]
              exact List.mem_append_right _ (hmiss n2 hn2 hemp)

/-- Every fetch event of the per-name loop is dated by a history entry:
in particular the end date passed to the provider is a stored
`end_date`, never a freshly resolved market close. -/
theorem comparePortfoliosLoop_fetch_events (fetch : Fetch)
    (history : List Entry) (names : List String) (t s2 e2 : String)
    (h : Event.fetch t s2 e2 ∈ (comparePortfoliosLoop fetch history names).2) :
    ∃ en ∈ history, s2 = en.start_date ∧ e2 = en.end_date := by
  induction names with
  | nil => simp [comparePortfoliosLoop] at h
  | cons n rest ih =>
    by_cases hm : history.filter (fun en => en.name == n) = []
    · rcases hrec : comparePortfoliosLoop fetch history rest with ⟨r2, evs2⟩
      simp only [comparePortfoliosLoop, hm, if_true, hrec, List.mem_cons] at h
      rcases h with h | h
      · cases h
      · exact ih (by rw [hrec]; exact h)
    · rcases hent : compareEntriesLoop fetch
        (history.filter (fun en => en.name == n)) with ⟨r1, evs1⟩
      have hsub : ∀ (hmem : Event.fetch t s2 e2 ∈ evs1),
          ∃ en ∈ history, s2 = en.start_date ∧ e2 = en.end_date := by
        intro hmem
        obtain ⟨en, hen, hs, he⟩ := compareEntriesLoop_fetch_events fetch _
          t s2 e2 (by rw [hent]; exact hmem)
        exact ⟨en, (List.mem_filter.mp hen).1, hs, he⟩
      rcases r1 with u | rows1
      · simp only [comparePortfoliosLoop, hm, if_false, hent] at h
        exact hsub h
      · rcases hrec : comparePortfoliosLoop fetch history rest with ⟨r2, evs2⟩
        have hmem : Event.fetch t s2 e2 ∈ evs1 ++ evs2 := by
          rcases r2 with u | rows2 <;>
            simpa only [comparePortfoliosLoop, hm, if_false, hent, hrec] using h
        rcases List.mem_append.mp hmem with hm2 | hm2
        · exact hsub hm2
        · exact ih (by rw [hrec]; exact hm2)

/-- `compare_portfolios` lift of `comparePortfoliosLoop_ok`. -/
theorem compare_portfolios_ok (fetch : Fetch) (history : List Entry)
    (names : List String) (rows : List CompareRow) (evs : List Event)
    (h : compare_portfolios fetch history names = (Except.ok rows, evs)) :
    rows = names.flatMap (fun n =>
      (history.filter (fun en => en.name == n)).filterMap
        (entryRowOpt fetch)) ∧
    (∀ n ∈ names, ∀ en ∈ history.filter (fun en2 => en2.name == n),
      (entryRowOpt fetch en).isSome = true) ∧
    (∀ n ∈ names, history.filter (fun en => en.name == n) = [] →
      Event.output (noHistoryMsg n) ∈ evs) := by
  rcases hrec : comparePortfoliosLoop fetch history names with ⟨r, evs2⟩
  rcases r with u | rows2
  · simp only [compare_portfolios, hrec] at h
    simp at h
  · simp only [compare_portfolios, hrec, Prod.mk.injEq, Except.ok.injEq] at h
    obtain ⟨h1, h2⟩ := h
    subst h1
    obtain ⟨hr, hall, hmiss⟩ := comparePortfoliosLoop_ok fetch history names
      rows2 evs2 (by rw [hrec])
    refine ⟨hr, hall, ?_⟩
    intro n hn hemp
    rw [← h2]
    exact List.mem_cons_of_mem _ (List.mem_append_left _ (hmiss n hn hemp))

/-- `compare_portfolios` lift of `comparePortfoliosLoop_fetch_events`. -/
theorem compare_portfolios_fetch_events (fetch : Fetch)
    (history : List Entry) (names : List String) (t s2 e2 : String)
    (h : Event.fetch t s2 e2 ∈ (compare_portfolios fetch history names).2) :
    ∃ en ∈ history, s2 = en.start_date ∧ e2 = en.end_date := by
  rcases hrec : comparePortfoliosLoop fetch history names with ⟨r, evs2⟩
  have hmem : Event.fetch t s2 e2 ∈ evs2 := by
    rcases r with u | rows2
    · simp only [compare_portfolios, hrec, List.mem_cons] at h
      rcases h with h | h
      · cases h
      · exact h
    · simp only [compare_portfolios, hrec, List.mem_cons, List.mem_append,
        List.mem_singleton] at h
      rcases h with h | h | h | h
      · cases h
      · exact h
      · cases h
      · simp at h
  exact comparePortfoliosLoop_fetch_events fetch history names t s2 e2
    (by rw [hrec]; exact hmem)

/-- Every fetch event of the aggregate branch is dated by a history
entry, with the empty end-date sentinel resolved through
`get_previous_market_close` at the time of use. -/
theorem aggregateRun_fetch_events (fetch : Fetch) (now : PyDateTime)
    (history : List Entry) (t s2 e2 : String)
    (h : Event.fetch t s2 e2 ∈ aggregateRun fetch now history) :
    ∃ en ∈ history, s2 = en.start_date ∧
      e2 = (if en.end_date = "" then get_previous_market_close now
            else en.end_date) := by
  induction history with
  | nil => simp [aggregateRun] at h
  | cons en rest ih =>
    rcases hpar : parse_portfolio en.portfolio_str with u | pf
    · simp only [aggregateRun, hpar, List.mem_singleton] at h
      cases h
    · rcases hcv : calculate_values fetch pf en.start_date
        (if en.end_date = "" then get_previous_market_close now
         else en.end_date) with ⟨cr, evs1⟩
      have hsub : ∀ (hmem : Event.fetch t s2 e2 ∈ evs1),
          ∃ en2 ∈ en :: rest, s2 = en2.start_date ∧
            e2 = (if en2.end_date = "" then get_previous_market_close now
                  else en2.end_date) := by
        intro hmem
        obtain ⟨hs, he⟩ := calculate_values_fetch_events fetch pf _ _
          t s2 e2 (by rw [hcv]; exact hmem)
        exact ⟨en, List.mem_cons_self .., hs, he⟩
      rcases cr with u | res
      · simp only [aggregateRun, hpar, hcv, List.mem_append,
          List.mem_singleton] at h
        rcases h with h | h
        · exact hsub h
        · cases h
      · simp only [aggregateRun, hpar, hcv, List.mem_append,
          List.mem_cons] at h
        rcases h with h | h | h
        · exact hsub h
        · cases h
        · obtain ⟨en2, hen2, hs, he⟩ := ih h
          exact ⟨en2, List.mem_cons_of_mem _ hen2, hs, he⟩

/-! ## Lemmas about the parser and small list facts -/

/-- `Except.isOk` on a value. -/
theorem isOk_ok {α : Type} (a : α) :
    (Except.ok a : Except Unit α).isOk = true := rfl

/-- `Except.isOk` on an exception. -/
theorem isOk_error {α : Type} (u : Unit) :
    (Except.error u : Except Unit α).isOk = false := rfl

/-- When every matched share string is a valid decimal, the conversion
comprehension succeeds and keeps the match order. -/
theorem convertMatches_ok (l : List (String × String))
    (hall : ∀ p ∈ l, (pyFloat p.2).isOk = true) :
    convertMatches l =
      Except.ok (l.map (fun p => (p.1, pyFloatVal p.2))) := by
  induction l with
  | nil => rfl
  | cons p rest ih =>
    have hp := hall p (List.mem_cons_self ..)
    rcases hq : pyFloat p.2 with u | q
    · rw [hq, isOk_error] at hp
      exact Bool.noConfusion hp
    · simp only [convertMatches, hq,
        ih (fun p2 hp2 => hall p2 (List.mem_cons_of_mem _ hp2))]
      simp [pyFloatVal, hq]

/-- The conversion comprehension raises iff some matched share string is
an invalid decimal. -/
theorem convertMatches_isOk (l : List (String × String)) :
    (convertMatches l).isOk = false ↔
      ∃ p ∈ l, (pyFloat p.2).isOk = false := by
  induction l with
  | nil =>
    simp only [convertMatches, isOk_ok]
    simp
  | cons p rest ih =>
    rcases hq : pyFloat p.2 with u | q
    · simp only [convertMatches, hq, isOk_error]
      constructor
      · intro _
        exact ⟨p, List.mem_cons_self .., by rw [hq, isOk_error]⟩
      · intro _; trivial
    · rcases hrest : convertMatches rest with u | l2
      · rw [hrest] at ih
        rw [isOk_error] at ih
        simp only [convertMatches, hq, hrest, isOk_error]
        constructor
        · intro _
          obtain ⟨p2, hp2, hfail⟩ := ih.mp rfl
          exact ⟨p2, List.mem_cons_of_mem _ hp2, hfail⟩
        · intro _; trivial
      · rw [hrest] at ih
        rw [isOk_ok] at ih
        simp only [convertMatches, hq, hrest, isOk_ok]
        constructor
        · intro hcon
          exact Bool.noConfusion hcon
        · rintro ⟨p2, hp2, hfail⟩
          rcases List.mem_cons.mp hp2 with rfl | hp2
          · rw [hq, isOk_ok] at hfail
            exact hfail
          · exact ih.mpr ⟨p2, hp2, hfail⟩

/-- A `filterMap` by an everywhere-`some` function keeps the length. -/
theorem filterMap_length_all_isSome {α β : Type} (f : α → Option β) :
    ∀ (l : List α), (∀ a ∈ l, (f a).isSome = true) →
      (l.filterMap f).length = l.length
  | [], _ => rfl
  | a :: rest, hall => by
    have ha := hall a (List.mem_cons_self ..)
    rcases hfa : f a with _ | b
    · rw [hfa] at ha; cases ha
    · simp only [List.filterMap_cons, hfa, List.length_cons]
      rw [filterMap_length_all_isSome f rest
        (fun x hx => hall x (List.mem_cons_of_mem _ hx))]

/-- Fields of a produced row: the value change is end minus start, and
the percent change is the unguarded ratio (`none`, i.e. NaN/±inf, when
the start value is zero). -/
theorem rowFor_fields (fetch : Fetch) (s e : String) (p : String × ℚ)
    (row : Row) (h : rowFor fetch s e p = some row) :
    row.value_change = row.end_value - row.start_value ∧
    row.percent_change =
      (if row.start_value = 0 then none
       else some (row.value_change / row.start_value * 100)) := by
  rcases hf : fetch p.1 s e with u | prices
  · simp [rowFor, hf] at h
  · by_cases hp : prices = []
    · simp [rowFor, hf, hp] at h
    · simp only [rowFor, hf, hp, if_false, Option.some.injEq] at h
      subst h
      constructor
      · simp [mkRow]
      · by_cases hz : prices.headD 0 * p.2 = 0 <;> simp [mkRow, hz]

/-- Summation helper: when every row's value change is its end value
minus its start value, the sums satisfy the same identity. -/
theorem sum_value_change (l : List Row)
    (hall : ∀ row ∈ l, row.value_change = row.end_value - row.start_value) :
    (l.map Row.value_change).sum =
      (l.map Row.end_value).sum - (l.map Row.start_value).sum := by
  induction l with
  | nil => simp
  | cons row rest ih =>
    simp only [List.map_cons, List.sum_cons]
    rw [hall row (List.mem_cons_self ..),
      ih (fun r hr => hall r (List.mem_cons_of_mem _ hr))]
    ring

/-! ## Concrete fixtures used by witnesses and counterexamples -/

/-- A provider with a single close of 10 for ticker `A`, no data
otherwise, never raising. -/
def fetchA : Fetch := fun t _ _ =>
  if t == "A" then Except.ok [10] else Except.ok []

/-- A provider raising on ticker `A`, with data for every other
ticker. -/
def fetchErrA : Fetch := fun t _ _ =>
  if t == "A" then Except.error () else Except.ok [5, 6]

/-- A provider with closes 3 → 5 for ticker `A`, no data otherwise. -/
def fetchAB : Fetch := fun t _ _ =>
  if t == "A" then Except.ok [3, 5] else Except.ok []

/-- A one-entry history under the name `Y`. -/
def histY : List Entry := [⟨"Y", "A(1)", "2024-01-01", "2024-02-01"⟩]

/-- A history with two entries under the same name `P`. -/
def histPP : List Entry :=
  [⟨"P", "A(1)", "2024-01-01", "2024-02-01"⟩,
   ⟨"P", "A(2)", "2024-01-01", "2024-02-01"⟩]

/-- A one-entry history whose end date is the unset sentinel. -/
def histSentinel : List Entry := [⟨"P", "A(1)", "2024-01-01", ""⟩]

/-- A one-entry history under the name `P` with its own date range. -/
def histQP : List Entry := [⟨"P", "A(2)", "2024-03-01", "2024-04-01"⟩]

/-- An evaluation instant: 2026-10-12, 10:00 (before market close). -/
def now0 : PyDateTime := ⟨2026, 10, 12, 10⟩

/-- An invocation with `--save` but no `--name`. -/
def argsSave : Args :=
  ⟨none, some "A(1)", some "2024.01.01", some "2024.02.01", false, none, true⟩

/-- An invocation comparing six names. -/
def argsCmp6 : Args :=
  ⟨none, none, none, none, false, some "a,b,c,d,e,f", false⟩

/-- Concrete parse: `A(1)` is one holding of one share of `A`. -/
theorem parse_A1 : parse_portfolio "A(1)" = Except.ok [("A", 1)] := by
  norm_num +decide [parse_portfolio, convertMatches, pyFloat,
    show scanMatches ("A(1)").toList = [("A", "1")] from by decide,
    show digitsToNat ['1'] = 1 from by decide,
    show digitsToNat [] = 0 from by decide]

/-- Concrete parse: `A(2)` is one holding of two shares of `A`. -/
theorem parse_A2 : parse_portfolio "A(2)" = Except.ok [("A", 2)] := by
  norm_num +decide [parse_portfolio, convertMatches, pyFloat,
    show scanMatches ("A(2)").toList = [("A", "2")] from by decide,
    show digitsToNat ['2'] = 2 from by decide,
    show digitsToNat [] = 0 from by decide]

/-! ## The claims -/

/-- C3 (amended): `calculate_values` does not isolate provider
exceptions: it raises — aborting the whole batch, returning no result —
exactly when the provider raises on some holding of the portfolio.  Only
the empty-series outcome is isolated per holding. -/
theorem c3_provider_exception_aborts_batch (fetch : Fetch)
    (pf : List (String × ℚ)) (s e : String) :
    (calculate_values fetch pf s e).1 = Except.error () ↔
      ∃ p ∈ pf, fetch p.1 s e = Except.error () :=
  calculate_values_error_iff fetch pf s e

/-- C3 counterexample: with a provider that raises on `A` but has data
for `B`, valuing `[A, B]` aborts with the exception instead of
completing the remaining holding `B` and returning a result. -/
theorem c3_counterexample :
    (calculate_values fetchErrA [("A", 1), ("B", 1)] "s" "e").1 =
      Except.error () ∧
    fetchErrA "B" "s" "e" = Except.ok [5, 6] :=
  ⟨by decide, by decide⟩

/-- C3 witness: the amended theorem applied at a concrete portfolio. -/
theorem c3_witness :
    (calculate_values fetchErrA [("A", 3)] "x" "y").1 = Except.error () :=
  (c3_provider_exception_aborts_batch fetchErrA [("A", 3)] "x" "y").mpr
    ⟨("A", 3), by decide, by decide⟩

/-- C7 (amended): `parse_portfolio` extracts exactly the regex matches
in first-occurrence order, silently skipping non-matching text — but it
is not total: it raises exactly when some matched share string is an
invalid decimal for `float` (no digit, or more than one dot), instead of
skipping such a token. -/
theorem c7_parse_extracts_or_raises (s : String) :
    ((parse_portfolio s).isOk = false ↔
      ∃ p ∈ scanMatches s.toList, (pyFloat p.2).isOk = false) ∧
    ((∀ p ∈ scanMatches s.toList, (pyFloat p.2).isOk = true) →
      parse_portfolio s =
        Except.ok ((scanMatches s.toList).map
          (fun p => (p.1, pyFloatVal p.2)))) :=
  ⟨convertMatches_isOk (scanMatches s.toList),
   fun hall => convertMatches_ok (scanMatches s.toList) hall⟩

/-- C7 counterexample: `A(.)` matches the pattern, `float(".")` raises,
so `parse_portfolio` raises instead of skipping the malformed token. -/
theorem c7_counterexample :
    parse_portfolio "A(.)" = Except.error () ∧
    (parse_portfolio "A(.)").isOk = false :=
  ⟨by decide, by decide⟩

/-- C7 witness: the amended theorem applied at a concrete
specification, with the extracted value computed explicitly. -/
theorem c7_witness :
    (∀ p ∈ scanMatches ("AAPL(10.5),x,BBB(2)").toList,
      (pyFloat p.2).isOk = true) ∧
    parse_portfolio "AAPL(10.5),x,BBB(2)" =
      Except.ok ((scanMatches ("AAPL(10.5),x,BBB(2)").toList).map
        (fun p => (p.1, pyFloatVal p.2))) ∧
    scanMatches ("AAPL(10.5),x,BBB(2)").toList =
      [("AAPL", "10.5"), ("BBB", "2")] ∧
    pyFloatVal "10.5" = 21 / 2 ∧ pyFloatVal "2" = 2 :=
  ⟨by decide, (c7_parse_extracts_or_raises "AAPL(10.5),x,BBB(2)").2 (by decide),
   by decide,
   by norm_num +decide [pyFloatVal, pyFloat,
     show digitsToNat ['1', '0'] = 10 from by decide,
     show digitsToNat ['5'] = 5 from by decide],
   by norm_num +decide [pyFloatVal, pyFloat,
     show digitsToNat ['2'] = 2 from by decide]⟩

/-- C8: holdings whose price series is empty (or whose fetch raised,
though then no result is returned at all) are excluded from the returned
rows, and each aggregate total is the sum of the corresponding per-row
values over the included rows. -/
theorem c8_rows_and_totals (fetch : Fetch) (pf : List (String × ℚ))
    (s e : String) (res : CalcResult) (evs : List Event)
    (h : calculate_values fetch pf s e = (Except.ok res, evs)) :
    res.data = pf.filterMap (rowFor fetch s e) ∧
    res.total_start_value = (res.data.map Row.start_value).sum ∧
    res.total_end_value = (res.data.map Row.end_value).sum ∧
    res.total_value_change = (res.data.map Row.value_change).sum := by
  obtain ⟨h1, h2, h3, h4, -⟩ := calculate_values_ok fetch pf s e res evs h
  exact ⟨h1, h2, h3, h4⟩

/-- C8 witness: the theorem applied at a concrete valuation in which
`B` has no data and is excluded. -/
theorem c8_witness :
    (calculate_values fetchAB [("A", 2), ("B", 1)] "s" "e" =
      (Except.ok ⟨[⟨"A", 2, 3, 5, 6, 10, some (200/3), 4⟩], 6, 10, 200/3, 4⟩,
       [Event.fetch "A" "s" "e", Event.fetch "B" "s" "e",
        Event.output (noDataMsg "B" "s" "e")])) ∧
    ((⟨[⟨"A", 2, 3, 5, 6, 10, some (200/3), 4⟩], 6, 10, 200/3, 4⟩ :
        CalcResult).data =
      [("A", (2 : ℚ)), ("B", 1)].filterMap (rowFor fetchAB "s" "e") ∧
     (⟨[⟨"A", 2, 3, 5, 6, 10, some (200/3), 4⟩], 6, 10, 200/3, 4⟩ :
        CalcResult).total_start_value =
      (((⟨[⟨"A", 2, 3, 5, 6, 10, some (200/3), 4⟩], 6, 10, 200/3, 4⟩ :
        CalcResult).data).map Row.start_value).sum ∧
     (⟨[⟨"A", 2, 3, 5, 6, 10, some (200/3), 4⟩], 6, 10, 200/3, 4⟩ :
        CalcResult).total_end_value =
      (((⟨[⟨"A", 2, 3, 5, 6, 10, some (200/3), 4⟩], 6, 10, 200/3, 4⟩ :
        CalcResult).data).map Row.end_value).sum ∧
     (⟨[⟨"A", 2, 3, 5, 6, 10, some (200/3), 4⟩], 6, 10, 200/3, 4⟩ :
        CalcResult).total_value_change =
      (((⟨[⟨"A", 2, 3, 5, 6, 10, some (200/3), 4⟩], 6, 10, 200/3, 4⟩ :
        CalcResult).data).map Row.value_change).sum) := by
  have h : calculate_values fetchAB [("A", 2), ("B", 1)] "s" "e" =
      (Except.ok ⟨[⟨"A", 2, 3, 5, 6, 10, some (200/3), 4⟩], 6, 10, 200/3, 4⟩,
       [Event.fetch "A" "s" "e", Event.fetch "B" "s" "e",
        Event.output (noDataMsg "B" "s" "e")]) := by
    norm_num +decide [calculate_values, calcRows, mkRow, fetchAB]
  exact ⟨h, c8_rows_and_totals fetchAB [("A", 2), ("B", 1)] "s" "e" _ _ h⟩

/-- C10: the total value change equals the total end value minus the
total start value, exactly, since all three totals are accumulated from
the same included rows. -/
theorem c10_total_change_eq_diff (fetch : Fetch) (pf : List (String × ℚ))
    (s e : String) (res : CalcResult) (evs : List Event)
    (h : calculate_values fetch pf s e = (Except.ok res, evs)) :
    res.total_value_change = res.total_end_value - res.total_start_value := by
  obtain ⟨h1, h2, h3, h4, -⟩ := calculate_values_ok fetch pf s e res evs h
  rw [h2, h3, h4]
  apply sum_value_change
  intro row hrow
  rw [h1] at hrow
  obtain ⟨p, -, hp⟩ := List.mem_filterMap.mp hrow
  exact (rowFor_fields fetch s e p row hp).1

/-- C10 witness: the theorem applied at a concrete valuation. -/
theorem c10_witness :
    (calculate_values fetchAB [("A", 2)] "s" "e" =
      (Except.ok ⟨[⟨"A", 2, 3, 5, 6, 10, some (200/3), 4⟩], 6, 10, 200/3, 4⟩,
       [Event.fetch "A" "s" "e"])) ∧
    (⟨[⟨"A", 2, 3, 5, 6, 10, some (200/3), 4⟩], 6, 10, 200/3, 4⟩ :
        CalcResult).total_value_change =
      (⟨[⟨"A", 2, 3, 5, 6, 10, some (200/3), 4⟩], 6, 10, 200/3, 4⟩ :
        CalcResult).total_end_value -
      (⟨[⟨"A", 2, 3, 5, 6, 10, some (200/3), 4⟩], 6, 10, 200/3, 4⟩ :
        CalcResult).total_start_value := by
  have h : calculate_values fetchAB [("A", 2)] "s" "e" =
      (Except.ok ⟨[⟨"A", 2, 3, 5, 6, 10, some (200/3), 4⟩], 6, 10, 200/3, 4⟩,
       [Event.fetch "A" "s" "e"]) := by
    norm_num +decide [calculate_values, calcRows, mkRow, fetchAB]
  exact ⟨h, c10_total_change_eq_diff fetchAB [("A", 2)] "s" "e" _ _ h⟩

/-- C1 (amended): the row-level percent change is computed by an
unguarded division: for a holding with a non-empty series whose start
value is 0 the row's percent change is the non-finite NaN/±inf outcome
(`none`), never 0; the zero-guard exists only for the aggregate percent
change, which is reported as 0 when the total start value is 0. -/
theorem c1_row_percent_unguarded (fetch : Fetch) (pf : List (String × ℚ))
    (s e : String) (res : CalcResult) (evs : List Event)
    (h : calculate_values fetch pf s e = (Except.ok res, evs)) :
    (∀ row ∈ res.data,
      (row.start_value = 0 → row.percent_change = none) ∧
      (row.start_value ≠ 0 →
        row.percent_change =
          some (row.value_change / row.start_value * 100))) ∧
    (res.total_start_value = 0 → res.overall_percent_change = 0) := by
  obtain ⟨h1, -, -, -, h5⟩ := calculate_values_ok fetch pf s e res evs h
  constructor
  · intro row hrow
    rw [h1] at hrow
    obtain ⟨p, -, hp⟩ := List.mem_filterMap.mp hrow
    have hpc := (rowFor_fields fetch s e p row hp).2
    constructor
    · intro hz; rw [hpc, if_pos hz]
    · intro hz; rw [hpc, if_neg hz]
  · intro hz; rw [h5, if_pos hz]

/-- C1 counterexample: a holding of 0 shares with a non-empty price
series has start value 0, and its row reports the NaN/±inf marker
(`none`) as percent change — not 0 as the claim states. -/
theorem c1_counterexample :
    calculate_values fetchA [("A", 0)] "2024-01-01" "2024-02-01" =
      (Except.ok ⟨[⟨"A", 0, 10, 10, 0, 0, none, 0⟩], 0, 0, 0, 0⟩,
       [Event.fetch "A" "2024-01-01" "2024-02-01",
        Event.output zeroStartMsg]) ∧
    (none : Option ℚ) ≠ some 0 := by
  constructor
  · norm_num +decide [calculate_values, calcRows, mkRow, fetchA]
  · decide

/-- C1 witness: the amended theorem applied at the zero-share
holding. -/
theorem c1_witness :
    (calculate_values fetchA [("A", 0)] "x" "y" =
      (Except.ok ⟨[⟨"A", 0, 10, 10, 0, 0, none, 0⟩], 0, 0, 0, 0⟩,
       [Event.fetch "A" "x" "y", Event.output zeroStartMsg])) ∧
    ((∀ row ∈ (⟨[⟨"A", 0, 10, 10, 0, 0, none, 0⟩], 0, 0, 0, 0⟩ :
        CalcResult).data,
      (row.start_value = 0 → row.percent_change = none) ∧
      (row.start_value ≠ 0 →
        row.percent_change =
          some (row.value_change / row.start_value * 100))) ∧
     ((⟨[⟨"A", 0, 10, 10, 0, 0, none, 0⟩], 0, 0, 0, 0⟩ :
        CalcResult).total_start_value = 0 →
      (⟨[⟨"A", 0, 10, 10, 0, 0, none, 0⟩], 0, 0, 0, 0⟩ :
        CalcResult).overall_percent_change = 0)) := by
  have h : calculate_values fetchA [("A", 0)] "x" "y" =
      (Except.ok ⟨[⟨"A", 0, 10, 10, 0, 0, none, 0⟩], 0, 0, 0, 0⟩,
       [Event.fetch "A" "x" "y", Event.output zeroStartMsg]) := by
    norm_num +decide [calculate_values, calcRows, mkRow, fetchA]
  exact ⟨h, c1_row_percent_unguarded fetchA [("A", 0)] "x" "y" _ _ h⟩

/-- C2 (amended): a compared name absent from the store is diagnosed
("No history found ... Skipping.") and skipped; the comparison is not
aborted — it still produces the rows of every present name. -/
theorem c2_missing_name_skipped (fetch : Fetch) (history : List Entry)
    (names : List String) (rows : List CompareRow) (evs : List Event)
    (h : compare_portfolios fetch history names = (Except.ok rows, evs)) :
    rows = names.flatMap (fun n =>
      (history.filter (fun en => en.name == n)).filterMap
        (entryRowOpt fetch)) ∧
    (∀ n ∈ names, history.filter (fun en => en.name == n) = [] →
      Event.output (noHistoryMsg n) ∈ evs) := by
  obtain ⟨hr, -, hmiss⟩ := compare_portfolios_ok fetch history names rows evs h
  exact ⟨hr, hmiss⟩

/-- C2 counterexample: comparing `[X, Y]` where only `Y` is stored does
not abort: it prints the missing-name diagnostic for `X` and still
produces the partial one-row table for `Y`. -/
theorem c2_counterexample :
    compare_portfolios fetchA histY ["X", "Y"] =
      (Except.ok [⟨"Y", "2024-01-01", "2024-02-01", 10, 10, 0, 0⟩],
       [Event.loadHistory, Event.output (noHistoryMsg "X"),
        Event.fetch "A" "2024-01-01" "2024-02-01", Event.printTable]) ∧
    [(⟨"Y", "2024-01-01", "2024-02-01", 10, 10, 0, 0⟩ : CompareRow)] ≠ [] := by
  constructor
  · norm_num +decide [compare_portfolios, comparePortfoliosLoop,
      compareEntriesLoop, histY, parse_A1, calculate_values, calcRows,
      mkRow, fetchA]
  · simp

/-- C2 witness: the amended theorem applied at a store holding only
`P`, compared as `[Q, P]`. -/
theorem c2_witness :
    (compare_portfolios fetchA histQP ["Q", "P"] =
      (Except.ok [⟨"P", "2024-03-01", "2024-04-01", 20, 20, 0, 0⟩],
       [Event.loadHistory, Event.output (noHistoryMsg "Q"),
        Event.fetch "A" "2024-03-01" "2024-04-01", Event.printTable])) ∧
    ([(⟨"P", "2024-03-01", "2024-04-01", 20, 20, 0, 0⟩ : CompareRow)] =
      ["Q", "P"].flatMap (fun n =>
        (histQP.filter (fun en => en.name == n)).filterMap
          (entryRowOpt fetchA)) ∧
     (∀ n ∈ ["Q", "P"], histQP.filter (fun en => en.name == n) = [] →
      Event.output (noHistoryMsg n) ∈
        [Event.loadHistory, Event.output (noHistoryMsg "Q"),
         Event.fetch "A" "2024-03-01" "2024-04-01", Event.printTable])) := by
  have h : compare_portfolios fetchA histQP ["Q", "P"] =
      (Except.ok [⟨"P", "2024-03-01", "2024-04-01", 20, 20, 0, 0⟩],
       [Event.loadHistory, Event.output (noHistoryMsg "Q"),
        Event.fetch "A" "2024-03-01" "2024-04-01", Event.printTable]) := by
    norm_num +decide [compare_portfolios, comparePortfoliosLoop,
      compareEntriesLoop, histQP, parse_A2, calculate_values, calcRows,
      mkRow, fetchA]
  exact ⟨h, c2_missing_name_skipped fetchA histQP ["Q", "P"] _ _ h⟩

/-- C4 (amended): a lookup does not pick a single entry per name:
compare emits one output row per matching stored entry, so the row count
is the sum over the requested names of the number of entries stored
under that name — a duplicated name yields several rows. -/
theorem c4_one_row_per_matching_entry (fetch : Fetch)
    (history : List Entry) (names : List String) (rows : List CompareRow)
    (evs : List Event)
    (h : compare_portfolios fetch history names = (Except.ok rows, evs)) :
    rows.length = (names.map (fun n =>
      (history.filter (fun en => en.name == n)).length)).sum := by
  obtain ⟨hr, hall, -⟩ := compare_portfolios_ok fetch history names rows evs h
  rw [hr, List.length_flatMap]
  congr 1
  apply List.map_congr_left
  intro n hn
  exact filterMap_length_all_isSome (entryRowOpt fetch) _ (hall n hn)

/-- C4 counterexample: with two stored entries named `P`, comparing the
single name `P` yields two rows, not exactly one row per compared
name. -/
theorem c4_counterexample :
    Except.map List.length (compare_portfolios fetchA histPP ["P"]).1 =
      Except.ok 2 ∧
    (2 : ℕ) ≠ 1 := by
  constructor
  · norm_num +decide [compare_portfolios, comparePortfoliosLoop,
      compareEntriesLoop, histPP, parse_A1, parse_A2, calculate_values,
      calcRows, mkRow, fetchA, Except.map]
  · decide

/-- C4 witness: the amended theorem applied at the duplicated-name
store. -/
theorem c4_witness :
    (compare_portfolios fetchA histPP ["P"] =
      (Except.ok [⟨"P", "2024-01-01", "2024-02-01", 10, 10, 0, 0⟩,
                  ⟨"P", "2024-01-01", "2024-02-01", 20, 20, 0, 0⟩],
       [Event.loadHistory, Event.fetch "A" "2024-01-01" "2024-02-01",
        Event.fetch "A" "2024-01-01" "2024-02-01", Event.printTable])) ∧
    [(⟨"P", "2024-01-01", "2024-02-01", 10, 10, 0, 0⟩ : CompareRow),
     ⟨"P", "2024-01-01", "2024-02-01", 20, 20, 0, 0⟩].length =
      (["P"].map (fun n =>
        (histPP.filter (fun en => en.name == n)).length)).sum := by
  have h : compare_portfolios fetchA histPP ["P"] =
      (Except.ok [⟨"P", "2024-01-01", "2024-02-01", 10, 10, 0, 0⟩,
                  ⟨"P", "2024-01-01", "2024-02-01", 20, 20, 0, 0⟩],
       [Event.loadHistory, Event.fetch "A" "2024-01-01" "2024-02-01",
        Event.fetch "A" "2024-01-01" "2024-02-01", Event.printTable]) := by
    norm_num +decide [compare_portfolios, comparePortfoliosLoop,
      compareEntriesLoop, histPP, parse_A1, parse_A2, calculate_values,
      calcRows, mkRow, fetchA]
  exact ⟨h, c4_one_row_per_matching_entry fetchA histPP ["P"] _ _ h⟩

/-- C5 (amended): a valuation invocation with `--save` but no `--name`
does raise the usage error ("Name is required when saving a portfolio.",
exiting non-zero) — but only after the price fetches, the valuation and
the result printing have all completed, not before any work is done. -/
theorem c5_save_without_name_raises_after_work (fetch : Fetch)
    (now : PyDateTime) (history : List Entry) (args : Args)
    (pstr frm : String) (pf : List (String × ℚ)) (res : CalcResult)
    (evs : List Event)
    (hagg : args.aggregate = false) (hcmp : args.compare = none)
    (hp : args.portfolio = some pstr) (hp_t : pstr ≠ "")
    (hf : args.frm = some frm) (hf_t : frm ≠ "")
    (hsave : args.save = true) (hname : args.name = none)
    (hpar : parse_portfolio pstr = Except.ok pf)
    (hcv : calculate_values fetch pf (pyReplaceChar frm '.' '-')
        (match args.to_date with
         | some t => pyReplaceChar t '.' '-'
         | none => get_previous_market_close now) = (Except.ok res, evs)) :
    main fetch now history args =
      evs ++ [Event.printResults, Event.raiseError saveNameMsg] := by
  have ht1 : pyTruthy args.compare = false := by rw [hcmp]; rfl
  have ht2 : pyTruthy args.portfolio = true := by
    rw [hp]; simp [pyTruthy, hp_t]
  have ht3 : pyTruthy args.frm = true := by
    rw [hf]; simp [pyTruthy, hf_t]
  have hcond : (!args.aggregate && !(pyTruthy args.compare) &&
      (!(pyTruthy args.portfolio) || !(pyTruthy args.frm))) = false := by
    rw [hagg, ht1, ht2, ht3]; rfl
  simp only [main]
  rw [hcond]
  simp only [Bool.false_eq_true, if_false]
  rw [hagg]
  simp only [Bool.false_eq_true, if_false]
  rw [ht1]
  simp only [Bool.false_eq_true, if_false]
  simp only [mainElse, hp, hf, hpar, hcv, hsave, hname, if_true]
  simp

/-- C5 counterexample: with `--save` and no `--name`, the run fetches,
values and prints first; the missing-name error is the last event, not
an immediate rejection before the fetch. -/
theorem c5_counterexample :
    main fetchA now0 [] argsSave =
      [Event.fetch "A" "2024-01-01" "2024-02-01", Event.printResults,
       Event.raiseError saveNameMsg] ∧
    (main fetchA now0 [] argsSave).head? =
      some (Event.fetch "A" "2024-01-01" "2024-02-01") := by
  have h : main fetchA now0 [] argsSave =
      [Event.fetch "A" "2024-01-01" "2024-02-01", Event.printResults,
       Event.raiseError saveNameMsg] := by
    norm_num +decide [main, mainElse, argsSave, pyTruthy, parse_A1,
      calculate_values, calcRows, mkRow, fetchA,
      show pyReplaceChar "2024.01.01" '.' '-' = "2024-01-01" from by decide,
      show pyReplaceChar "2024.02.01" '.' '-' = "2024-02-01" from by decide]
  exact ⟨h, by rw [h]; rfl⟩

/-- C5 witness: the amended theorem applied at the concrete
save-without-name invocation. -/
theorem c5_witness :
    (argsSave.aggregate = false ∧ argsSave.compare = none ∧
     argsSave.portfolio = some "A(1)" ∧ argsSave.frm = some "2024.01.01" ∧
     argsSave.save = true ∧ argsSave.name = none ∧
     parse_portfolio "A(1)" = Except.ok [("A", 1)] ∧
     calculate_values fetchA [("A", 1)]
        (pyReplaceChar "2024.01.01" '.' '-')
        (match argsSave.to_date with
         | some t => pyReplaceChar t '.' '-'
         | none => get_previous_market_close now0) =
       (Except.ok ⟨[⟨"A", 1, 10, 10, 10, 10, some 0, 0⟩], 10, 10, 0, 0⟩,
        [Event.fetch "A" "2024-01-01" "2024-02-01"])) ∧
    main fetchA now0 [] argsSave =
      [Event.fetch "A" "2024-01-01" "2024-02-01"] ++
        [Event.printResults, Event.raiseError saveNameMsg] := by
  have hcv : calculate_values fetchA [("A", 1)]
      (pyReplaceChar "2024.01.01" '.' '-')
      (match argsSave.to_date with
       | some t => pyReplaceChar t '.' '-'
       | none => get_previous_market_close now0) =
      (Except.ok ⟨[⟨"A", 1, 10, 10, 10, 10, some 0, 0⟩], 10, 10, 0, 0⟩,
       [Event.fetch "A" "2024-01-01" "2024-02-01"]) := by
    show calculate_values fetchA [("A", 1)]
      (pyReplaceChar "2024.01.01" '.' '-')
      (pyReplaceChar "2024.02.01" '.' '-') = _
    rw [show pyReplaceChar "2024.01.01" '.' '-' = "2024-01-01" from by decide,
      show pyReplaceChar "2024.02.01" '.' '-' = "2024-02-01" from by decide]
    norm_num +decide [calculate_values, calcRows, mkRow, fetchA]
  exact ⟨⟨rfl, rfl, rfl, rfl, rfl, rfl, parse_A1, hcv⟩,
    c5_save_without_name_raises_after_work fetchA now0 [] argsSave
      "A(1)" "2024.01.01" [("A", 1)] _ _ rfl rfl rfl (by decide) rfl
      (by decide) rfl rfl parse_A1 hcv⟩

/-- C6 (amended): only the aggregate consumer resolves the unset
end-date sentinel to the most recent completed session at the time of
use; the compare consumer passes the stored end date through unresolved,
so the empty sentinel reaches the provider as-is. -/
theorem c6_sentinel_resolution (fetch : Fetch) (now : PyDateTime)
    (history : List Entry) (names : List String)
    (hall : ∀ en ∈ history, en.end_date = "") :
    (∀ t s2 e2, Event.fetch t s2 e2 ∈ aggregateRun fetch now history →
      e2 = get_previous_market_close now) ∧
    (∀ t s2 e2,
      Event.fetch t s2 e2 ∈ (compare_portfolios fetch history names).2 →
      e2 = "") := by
  constructor
  · intro t s2 e2 h
    obtain ⟨en, hen, -, he⟩ :=
      aggregateRun_fetch_events fetch now history t s2 e2 h
    rw [hall en hen] at he
    simpa using he
  · intro t s2 e2 h
    obtain ⟨en, hen, -, he⟩ :=
      compare_portfolios_fetch_events fetch history names t s2 e2 h
    rw [hall en hen] at he
    exact he

/-- C6 counterexample: replaying a stored snapshot whose end date is the
empty sentinel through compare fetches with the raw empty end date, even
though resolving at the time of use (2026-10-12, before close) would
give "2026-10-11". -/
theorem c6_counterexample :
    Event.fetch "A" "2024-01-01" "" ∈
      (compare_portfolios fetchA histSentinel ["P"]).2 ∧
    get_previous_market_close now0 = "2026-10-11" ∧
    ("" : String) ≠ "2026-10-11" := by
  refine ⟨?_, by decide, by decide⟩
  have h : (compare_portfolios fetchA histSentinel ["P"]).2 =
      [Event.loadHistory, Event.fetch "A" "2024-01-01" "",
       Event.printTable] := by
    norm_num +decide [compare_portfolios, comparePortfoliosLoop,
      compareEntriesLoop, histSentinel, parse_A1, calculate_values,
      calcRows, mkRow, fetchA]
  rw [h]
  simp

/-- C6 witness: the amended theorem applied at the sentinel store. -/
theorem c6_witness :
    (∀ en ∈ histSentinel, en.end_date = "") ∧
    ((∀ t s2 e2,
        Event.fetch t s2 e2 ∈ aggregateRun fetchA now0 histSentinel →
        e2 = get_previous_market_close now0) ∧
     (∀ t s2 e2,
        Event.fetch t s2 e2 ∈
          (compare_portfolios fetchA histSentinel ["P"]).2 →
        e2 = "")) :=
  ⟨by decide, c6_sentinel_resolution fetchA now0 histSentinel ["P"]
    (by decide)⟩

/-- C9: a compare invocation with more than five names prints only the
limit diagnostic and performs no other work: no history load, no fetch,
no valuation — the whole trace is that single message. -/
theorem c9_compare_limit (fetch : Fetch) (now : PyDateTime)
    (history : List Entry) (args : Args) (c : String)
    (hagg : args.aggregate = false) (hcmp : args.compare = some c)
    (hlen : 5 < (pySplit c ',').length) :
    main fetch now history args = [Event.output compareLimitMsg] := by
  have hcne : c ≠ "" := by
    intro hc
    subst hc
    have h1 : (pySplit "" ',').length = 1 := by decide
    omega
  have ht : pyTruthy args.compare = true := by
    rw [hcmp]; simp [pyTruthy, hcne]
  have hcond : (!args.aggregate && !(pyTruthy args.compare) &&
      (!(pyTruthy args.portfolio) || !(pyTruthy args.frm))) = false := by
    rw [ht]; simp
  simp only [main]
  rw [hcond]
  simp only [Bool.false_eq_true, if_false]
  rw [hagg]
  simp only [Bool.false_eq_true, if_false]
  rw [ht]
  rw [if_pos rfl]
  rw [hcmp]
  simp only [Option.getD_some]
  simp only [mainCompare]
  rw [if_pos hlen]

/-- C9 witness: the theorem applied at a six-name compare string. -/
theorem c9_witness :
    (argsCmp6.aggregate = false ∧
     argsCmp6.compare = some "a,b,c,d,e,f" ∧
     5 < (pySplit "a,b,c,d,e,f" ',').length) ∧
    main fetchA now0 [] argsCmp6 = [Event.output compareLimitMsg] :=
  ⟨⟨rfl, rfl, by decide⟩,
   c9_compare_limit fetchA now0 [] argsCmp6 "a,b,c,d,e,f" rfl rfl
     (by decide)⟩

end Fomo
